import Mathlib

/-!
Shallow embedding of the recipe extraction pipeline of
`src/recipe_viewer_app.py` (functions `split_recipes`, `extract_ingredients`,
`extract_instructions`, `extract_macros`, the title extraction inside
`extract_and_store_all_recipes`, the per-block filter and delivery decision of
`extract_and_store_all_recipes`, and the step numbering of `save_recipe`).

Strings are modelled as `List Char` internally (Python `str` indexing is by
code point).  Python whitespace / digit / word classes are modelled on their
ASCII fragment, which is all the heuristics of this program exercise.
Python `float` values produced by `extract_macros` are modelled as exact
rationals; the numeric literals matched by the macro pattern denote decimal
fractions, which `ℚ` represents exactly.
-/

namespace RecipeApp


/-- ASCII fragment of Python whitespace (`str.strip`, `str.split`, regex `\s`):
space, tab, newline, carriage return, vertical tab, form feed. -/
def pyIsSpace (c : Char) : Bool :=
  c = ' ' || c = '\t' || c = '\n' || c = '\r' || c = '\x0b' || c = '\x0c'

/-- ASCII lowercasing, as applied by `str.lower` and by `re.IGNORECASE`
matching on the ASCII letters that occur in this program's patterns. -/
def lowChar (c : Char) : Char :=
  if 'A' ≤ c && c ≤ 'Z' then Char.ofNat (c.toNat + 32) else c

/-- ASCII fragment of the regex word class `\w`, used for `\b` boundaries. -/
def isWordChar (c : Char) : Bool :=
  c.isAlpha || c.isDigit || c = '_'

/-- Line-boundary characters of Python `str.splitlines` (other than the
`"\r\n"` pair, which is handled by the splitter itself). -/
def lineBoundChar (c : Char) : Bool :=
  c = '\n' || c = '\r' || c = '\x0b' || c = '\x0c' || c = '\x1c' ||
  c = '\x1d' || c = '\x1e' || c = '\x85' || c = '\u2028' || c = '\u2029'

/-- Helper for `splitlines`: `acc` is the current line, reversed. -/
def splitlinesAux : List Char → List Char → List (List Char)
  | [], acc => if acc.isEmpty then [] else [acc.reverse]
  | '\r' :: '\n' :: rest, acc => acc.reverse :: splitlinesAux rest []
  | c :: rest, acc =>
    if lineBoundChar c then acc.reverse :: splitlinesAux rest []
    else splitlinesAux rest (c :: acc)

/-- Python `str.splitlines`: split at line boundaries, boundary characters
consumed, no trailing empty line for a trailing boundary. -/
def splitlines (cs : List Char) : List (List Char) :=
  splitlinesAux cs []

/-- Python `str.strip`: drop leading and trailing whitespace. -/
def pyStrip (cs : List Char) : List Char :=
  ((cs.dropWhile pyIsSpace).reverse.dropWhile pyIsSpace).reverse

/-- Whether `needle` is a prefix of `hay` (character-exact). -/
def prefixL : List Char → List Char → Bool
  | [], _ => true
  | _ :: _, [] => false
  | a :: as, b :: bs => a = b && prefixL as bs

/-- Whether `needle` occurs as a contiguous substring of the second list;
models Python's `needle in hay` on strings. -/
def containsSub (needle : List Char) : List Char → Bool
  | [] => needle.isEmpty
  | c :: rest => prefixL needle (c :: rest) || containsSub needle rest

/-- Python `str.split()` with no separator: maximal runs of non-whitespace. -/
def pyWords (cs : List Char) : List (List Char) :=
  (cs.foldr
    (fun c ws =>
      if pyIsSpace c then [] :: ws
      else
        match ws with
        | [] => [[c]]
        | w :: rest => (c :: w) :: rest)
    []).filter (fun w => !w.isEmpty)

/-- Case-insensitive literal match: if lowercasing `cs` starts with the
(lowercase) word `w`, return the remainder of `cs` after it. -/
def ciDrop : List Char → List Char → Option (List Char)
  | [], cs => some cs
  | _ :: _, [] => none
  | w :: ws, c :: cs => if lowChar c = w then ciDrop ws cs else none

/-- Unit vocabulary of ingredient rule (a), in the alternation order of the
regex on line 74 of `src/recipe_viewer_app.py`. -/
def unitWords : List (List Char) :=
  ["cup", "tsp", "tbsp", "g", "gram", "oz", "ml", "kg", "lb", "teaspoon",
   "tablespoon", "clove", "slice", "scoop", "packet", "can", "stick"].map
    String.toList

/-- Does some unit word match at the head of `cs`, followed by a word
boundary (`\b`: end of string or a non-word character)? -/
def unitAtBoundary (cs : List Char) : Bool :=
  unitWords.any fun w =>
    match ciDrop w cs with
    | some [] => true
    | some (c :: _) => !isWordChar c
    | none => false

/-- Ingredient rule (a), the regex
`^[-*•]?\s*\d+(\.\d+)?\s?(cup|tsp|...)\b` of line 74 applied with
`re.match` and `re.IGNORECASE` to the stripped line.  The optional bullet,
the whitespace run, and the digit runs are all deterministic here (shorter
matches can never be followed by the next required character class), and the
single optional `\s?` is tried greedily first, exactly as the backtracking
engine does. -/
def ruleA (cs : List Char) : Bool :=
  let cs1 :=
    match cs with
    | c :: rest => if c = '-' || c = '*' || c = '•' then rest else cs
    | [] => cs
  let cs2 := cs1.dropWhile pyIsSpace
  match cs2 with
  | c :: _ =>
    if c.isDigit then
      let afterInt := cs2.dropWhile Char.isDigit
      let afterNum :=
        match afterInt with
        | '.' :: d :: rest =>
          if d.isDigit then (d :: rest).dropWhile Char.isDigit else afterInt
        | _ => afterInt
      (match afterNum with
       | c2 :: rest2 => (pyIsSpace c2 && unitAtBoundary rest2) || unitAtBoundary afterNum
       | [] => false)
    else false
  | [] => false

/-- Ingredient rule (b)'s regex `^[-*•]?\s*\d+\s.*` of line 76 applied with
`re.match` to the stripped line (`.*` always succeeds on a line, which
contains no line-boundary characters). -/
def ruleB (cs : List Char) : Bool :=
  let cs1 :=
    match cs with
    | c :: rest => if c = '-' || c = '*' || c = '•' then rest else cs
    | [] => cs
  let cs2 := cs1.dropWhile pyIsSpace
  match cs2 with
  | c :: _ =>
    if c.isDigit then
      match cs2.dropWhile Char.isDigit with
      | d :: _ => pyIsSpace d
      | [] => false
    else false
  | [] => false

/-- Ingredient rule (b)'s substring condition of line 76:
`any(unit in line.lower() for unit in ["cup","tsp","tbsp","oz","g","ml","kg","lb"])`. -/
def hasUnitSubstr (cs : List Char) : Bool :=
  let low := cs.map lowChar
  (["cup", "tsp", "tbsp", "oz", "g", "ml", "kg", "lb"].map String.toList).any
    fun u => containsSub u low

/-- Embedding of `extract_ingredients` (lines 69-78): split into lines, strip
each, keep a line if rule (a) matches, or else if rule (b)'s regex matches and
the lowercased line contains a unit substring. -/
def extract_ingredients (text : String) : List String :=
  (splitlines text.toList).filterMap fun l =>
    let line := pyStrip l
    if ruleA line then some (String.mk line)
    else if ruleB line && hasUnitSubstr line then some (String.mk line)
    else none

/-- Header substrings that switch `extract_instructions` into capture mode
(line 86 of the source). -/
def headerWords : List (List Char) :=
  ["instructions", "directions", "method"].map String.toList

/-- Terminator substrings that end instruction capture (line 90). -/
def termWords : List (List Char) :=
  ["macros", "nutrition", "course", "calories", "psst"].map String.toList

/-- Does the (lowercased) line contain one of the capture-header substrings? -/
def headersAny (low : List Char) : Bool :=
  headerWords.any fun h => containsSub h low

/-- Does the (lowercased) line contain one of the terminator substrings? -/
def termsAny (low : List Char) : Bool :=
  termWords.any fun t => containsSub t low

/-- Line loop of `extract_instructions` (lines 84-93); `found` is the Python
flag of the same name.  Before the header is seen, a line containing a header
substring sets the flag and is discarded; after it, a terminator line stops
the whole loop, and other lines are emitted when non-empty, not starting with
`"tag us"`, and having more than two whitespace-separated words. -/
def instructionsGo : Bool → List (List Char) → List String
  | _, [] => []
  | found, l :: rest =>
    let line := pyStrip l
    let low := line.map lowChar
    if !found && headersAny low then instructionsGo true rest
    else if found then
      if termsAny low then []
      else if !line.isEmpty && !prefixL ("tag us".toList) low && (pyWords line).length > 2 then
        String.mk line :: instructionsGo found rest
      else instructionsGo found rest
    else instructionsGo found rest

/-- Embedding of `extract_instructions` (lines 80-94). -/
def extract_instructions (text : String) : List String :=
  instructionsGo false (splitlines text.toList)

/-- Numeric value of a list of decimal digit characters. -/
def natOfDigits (ds : List Char) : Nat :=
  ds.foldl (fun n d => 10 * n + (d.toNat - '0'.toNat)) 0

/-- Exact value of the decimal literal with integer digits `int` and
fractional digits `frac`; models Python `float` applied to the literal
(`float(match.group(2))` on line 101), whose value these literals denote
exactly in `ℚ`. -/
def pyFloat : List Char × List Char → ℚ
  | (int, frac) => (natOfDigits int : ℚ) + (natOfDigits frac : ℚ) / (10 : ℚ) ^ frac.length

/-- The numeric tail `(\d+\.?\d*)` of the macro pattern (line 98), matched at
the head of `cs`: a maximal digit run, an optional dot, a maximal digit run.
Returns the digit groups of the matched literal and the remainder after it. -/
def parseNumber (cs : List Char) : Option ((List Char × List Char) × List Char) :=
  match cs with
  | c :: _ =>
    if c.isDigit then
      let int := cs.takeWhile Char.isDigit
      let rest1 := cs.dropWhile Char.isDigit
      match rest1 with
      | '.' :: rest2 =>
        some ((int, rest2.takeWhile Char.isDigit), rest2.dropWhile Char.isDigit)
      | _ => some ((int, []), rest1)
    else none
  | [] => none

/-- Macro-name vocabulary, in the alternation order of the regex on line 98. -/
def vocabWords : List String :=
  ["calories", "protein", "fat", "carbs", "carbohydrates", "fiber", "sugar",
   "cholesterol", "sodium"]

/-- First vocabulary word matching case-insensitively at the head of `cs`
(group 1 of the macro pattern; the lowercase word is what `group(1).lower()`
yields), with the remainder after it.  At most one word can match at a given
position, since no vocabulary word is a prefix of another. -/
def vocabRec : List String → List Char → Option (String × List Char)
  | [], _ => none
  | w :: ws, cs =>
    match ciDrop w.toList cs with
    | some rest => some (w, rest)
    | none => vocabRec ws cs

/-- One attempted match of the macro pattern
`(calories|...|sodium)[^\d]*(\d+\.?\d*)` starting exactly at the head of
`cs`: a vocabulary word, then all following non-digits (the greedy `[^\d]*`
necessarily ends right before the first digit), then the numeric literal.
Returns the lowercased name, the literal digit groups, and the remainder
after the match. -/
def macroMatchAt (cs : List Char) :
    Option (String × (List Char × List Char) × List Char) :=
  match vocabRec vocabWords cs with
  | none => none
  | some (w, rest) =>
    match parseNumber (rest.dropWhile fun c => !c.isDigit) with
    | some (d, rest') => some (w, d, rest')
    | none => none

/-- Scan of `pattern.finditer(text)` (line 99), structural on a fuel bound:
at each position, attempt the macro pattern; on success emit the match and
continue after it (matches are non-overlapping, leftmost first); on failure
advance one character.  Every step consumes at least one character, so fuel
equal to the input length never runs out (`macroScanF_fuel`). -/
def macroScanF : Nat → List Char → List (String × List Char × List Char)
  | _, [] => []
  | 0, _ :: _ => []
  | fuel + 1, c :: cs =>
    match macroMatchAt (c :: cs) with
    | some (name, d, rest) => (name, d) :: macroScanF fuel rest
    | none => macroScanF fuel cs

/-- The full `finditer` match sequence of a character list: each element is a
matched macro name together with the digit groups of its numeric literal. -/
def macroScan (cs : List Char) : List (String × List Char × List Char) :=
  macroScanF cs.length cs

/-- Python dict insertion with overwrite (`macros[name] = value`, line 102):
replace the value in place if the key is present, else append. -/
def macroInsert : List (String × ℚ) → String × ℚ → List (String × ℚ)
  | [], p => [p]
  | q :: rest, p => if q.1 = p.1 then p :: rest else q :: macroInsert rest p

/-- Lookup in the macro mapping. -/
def macroLookup (m : List (String × ℚ)) (k : String) : Option ℚ :=
  match m.find? fun p => p.1 = k with
  | some p => some p.2
  | none => none

/-- Embedding of `extract_macros` (lines 96-103): for every pattern match in
scan order, convert the numeric literal with `float` and store it in the
mapping under the lowercased name, overwriting any earlier value. -/
def extract_macros (text : String) : List (String × ℚ) :=
  (macroScan text.toList).foldl (fun m p => macroInsert m (p.1, pyFloat p.2)) []


/-- The `recipe\s?:` alternative of the split pattern (line 67), matched at
the head of `cs` with `re.IGNORECASE`: the word "recipe", at most one
whitespace character, then a colon (the colon is required by the pattern).
The greedy optional `\s?` is tried first, exactly as the backtracking engine
does; a whitespace character can never satisfy the `:` literal, so the
fallback cases are as written. -/
def recipeDelimTail (cs : List Char) : Option (List Char) :=
  match ciDrop ("recipe".toList) cs with
  | none => none
  | some rest =>
    match rest with
    | [] => none
    | c :: r' =>
      if pyIsSpace c then
        match r' with
        | [] => none
        | d :: rr => if d = ':' then some rr else none
      else if c = ':' then some r' else none

/-- The `===+` alternative of the split pattern: three or more equals signs,
matched greedily. -/
def eqRunTail (cs : List Char) : Option (List Char) :=
  match cs with
  | a :: b :: c :: rest =>
    if a = '=' && b = '=' && c = '=' then some (rest.dropWhile fun x => x = '=')
    else none
  | _ => none

/-- The `---+` alternative of the split pattern: three or more dashes,
matched greedily. -/
def dashRunTail (cs : List Char) : Option (List Char) :=
  match cs with
  | a :: b :: c :: rest =>
    if a = '-' && b = '-' && c = '-' then some (rest.dropWhile fun x => x = '-')
    else none
  | _ => none

/-- The delimiter body `(?:recipe\s?:|===+|---+)` of the split pattern,
alternatives tried in order. -/
def matchDelimTail (cs : List Char) : Option (List Char) :=
  match recipeDelimTail cs with
  | some r => some r
  | none =>
    match eqRunTail cs with
    | some r => some r
    | none => dashRunTail cs

/-- The scan of `re.split` (line 67) over the positions after the start of
the string, structural on a fuel bound: at each `"\n"` (the `(?:^|\n)`
prefix can only match via its `\n` branch past position zero) the delimiter
body is attempted on the remainder; on a match the newline and the delimiter
body are consumed and the piece accumulated so far (in `acc`, reversed) is
emitted.  Every step consumes at least one character, so fuel equal to the
input length never runs out (`splitScanF_fuel`). -/
def splitScanF : Nat → List Char → List Char → List (List Char)
  | _, [], acc => [acc.reverse]
  | 0, c :: rest, acc => [acc.reverse ++ c :: rest]
  | fuel + 1, c :: rest, acc =>
    if c = '\n' then
      match matchDelimTail rest with
      | some rest' => acc.reverse :: splitScanF fuel rest' []
      | none => splitScanF fuel rest (c :: acc)
    else splitScanF fuel rest (c :: acc)

/-- Embedding of `split_recipes` (lines 66-67),
`re.split(r"(?:^|\n)(?:recipe\s?:|===+|---+)", text, flags=re.IGNORECASE)`:
at position zero the `^` branch of `(?:^|\n)` allows a delimiter with no
preceding newline (producing a leading empty piece); afterwards the scan
looks for `\n` followed by the delimiter body.  Pieces between matches are
returned; the matched text itself is dropped. -/
def split_recipes (text : String) : List String :=
  match matchDelimTail text.toList with
  | some rest => "" :: (splitScanF rest.length rest []).map String.mk
  | none => (splitScanF text.toList.length text.toList []).map String.mk

/-- Does the `\n`-delimiter scan find any match in `cs`?  `split_recipes`
returns a single piece on text whose tail contains no such match. -/
def hasCut : List Char → Bool
  | [] => false
  | c :: rest => (c = '\n' && (matchDelimTail rest).isSome) || hasCut rest

/-- Character class `[A-Za-z ,]` of the title pattern (line 126). -/
def titleChar (c : Char) : Bool :=
  ('A' ≤ c && c ≤ 'Z') || ('a' ≤ c && c ≤ 'z') || c = ' ' || c = ','

/-- Group 1 of the title pattern, `(recipe\s*[:\-])`: the word "recipe"
(case-insensitive), any run of whitespace, then a colon or dash.  A shorter
whitespace run can never satisfy `[:\-]`, so the greedy run is
deterministic. -/
def recipeLabelTail (cs : List Char) : Option (List Char) :=
  match ciDrop ("recipe".toList) cs with
  | none => none
  | some rest =>
    match rest.dropWhile pyIsSpace with
    | ':' :: r => some r
    | '-' :: r => some r
    | _ => none

/-- Is the character at index `i` of `cs` in the class `[A-Za-z ,]`? -/
def titleCharAt (cs : List Char) (i : Nat) : Bool :=
  match cs.get? i with
  | some c => titleChar c
  | none => false

/-- Backtracking of the greedy `\s*` before `([A-Za-z ,]+)`: positions are
tried from the full whitespace run down to zero, and the first position
whose character is in the class starts the captured run. -/
def pickStart (cs : List Char) : Nat → Option Nat
  | 0 => if titleCharAt cs 0 then some 0 else none
  | j + 1 => if titleCharAt cs (j + 1) then some (j + 1) else pickStart cs j

/-- Match of `\s*([A-Za-z ,]+)` at the head of `cs`, returning the text
captured by the group: the greedy whitespace run backs off until the
one-or-more class run can start, and the class run itself is greedy. -/
def wsThenRun (cs : List Char) : Option (List Char) :=
  match pickStart cs (cs.takeWhile pyIsSpace).length with
  | some j => some ((cs.drop j).takeWhile titleChar)
  | none => none

/-- Match of the full title pattern `(recipe\s*[:\-])?\s*([A-Za-z ,]+)`
starting exactly at the head of `cs`, returning group 2: the optional group
is tried first; if the label matches but the rest fails after it, the engine
backtracks to the label-absent alternative at the same position. -/
def titleMatchAt (cs : List Char) : Option (List Char) :=
  match recipeLabelTail cs with
  | some rest =>
    match wsThenRun rest with
    | some g => some g
    | none => wsThenRun cs
  | none => wsThenRun cs

/-- `re.search` of the title pattern: the match is attempted at each
position left to right, and the first position that matches wins. -/
def titleSearch : List Char → Option (List Char)
  | [] => none
  | c :: rest =>
    match titleMatchAt (c :: rest) with
    | some g => some g
    | none => titleSearch rest

/-- Embedding of the title extraction on lines 126-127 of
`extract_and_store_all_recipes`:
`re.search(r"(recipe\s*[:\-])?\s*([A-Za-z ,]+)", block.strip(), re.IGNORECASE)`
followed by `title_match.group(2).strip() if title_match else
"Untitled Recipe"`. -/
def extract_title (block : String) : String :=
  match titleSearch (pyStrip block.toList) with
  | some g => String.mk (pyStrip g)
  | none => "Untitled Recipe"

/-- A recipe as assembled by `extract_and_store_all_recipes` (lines
126-130) and delivered to `save_recipe`. -/
structure Recipe where
  title : String
  ingredients : List String
  instructions : List String
  macros : List (String × ℚ)
deriving DecidableEq, Repr

/-- Per-block body of the loop in `extract_and_store_all_recipes` (lines
123-132): skip blocks whose stripped length is under 20; otherwise run the
four extractors and deliver the assembled recipe exactly when the
ingredient list or the instruction list is non-empty (Python truthiness of
`ingredients or instructions`).  `none` models a block that is skipped or
discarded, which raises no error in the source. -/
def processBlock (block : String) : Option Recipe :=
  if (pyStrip block.toList).length < 20 then none
  else
    let title := extract_title block
    let ingredients := extract_ingredients block
    let instructions := extract_instructions block
    let macros := extract_macros block
    if !ingredients.isEmpty || !instructions.isEmpty then
      some ⟨title, ingredients, instructions, macros⟩
    else none

/-- Embedding of `extract_and_store_all_recipes` on an already-fetched text:
segment, then process the blocks in order; the resulting list is the
sequence of recipes delivered to `save_recipe`. -/
def extract_and_store_all_recipes (text : String) : List Recipe :=
  (split_recipes text).filterMap processBlock

/-- Python `enumerate(instructions, 1)` (line 113). -/
def enumerateFrom : Nat → List String → List (Nat × String)
  | _, [] => []
  | n, a :: as => (n, a) :: enumerateFrom (n + 1) as

/-- The `(step_number, instruction)` rows that `save_recipe` (lines
113-114) inserts for a recipe. -/
def savedInstructionRows (r : Recipe) : List (Nat × String) :=
  enumerateFrom 1 r.instructions

theorem ciDrop_length {w cs rest : List Char} (h : ciDrop w cs = some rest) :
    rest.length + w.length = cs.length := by
  induction w generalizing cs with
  | nil =>
    simp [ciDrop] at h
    simp [h]
  | cons a as ih =>
    match cs with
    | [] => simp [ciDrop] at h
    | c :: cs' =>
      simp only [ciDrop] at h
      split at h
      · have := ih h
        simp [List.length_cons]
        omega
      · exact absurd h (by simp)

theorem dropWhile_length_le (p : Char → Bool) (l : List Char) :
    (l.dropWhile p).length ≤ l.length := by
  induction l with
  | nil => simp
  | cons c cs ih =>
    by_cases h : p c = true
    · rw [List.dropWhile_cons, if_pos h]
      exact Nat.le_succ_of_le ih
    · rw [List.dropWhile_cons, if_neg h]

theorem parseNumber_length {cs : List Char} {d : List Char × List Char}
    {rest : List Char} (h : parseNumber cs = some (d, rest)) :
    rest.length ≤ cs.length := by
  match cs with
  | [] => simp [parseNumber] at h
  | c :: cs' =>
    have hd : (List.dropWhile Char.isDigit (c :: cs')).length ≤ (c :: cs').length :=
      dropWhile_length_le _ _
    simp only [parseNumber] at h
    split at h
    · split at h
      · rename_i rest2 heq
        simp only [Option.some.injEq, Prod.mk.injEq] at h
        obtain ⟨-, h2⟩ := h
        subst h2
        rw [heq] at hd
        have h4 := dropWhile_length_le Char.isDigit rest2
        simp only [List.length_cons] at hd ⊢
        omega
      · simp only [Option.some.injEq, Prod.mk.injEq] at h
        obtain ⟨-, h2⟩ := h
        subst h2
        exact hd
    · exact absurd h (by simp)

theorem vocabRec_length {ws : List String} {cs rest : List Char} {w : String}
    (h : vocabRec ws cs = some (w, rest))
    (hne : ∀ x ∈ ws, x.toList ≠ []) : rest.length < cs.length := by
  induction ws with
  | nil => simp [vocabRec] at h
  | cons a as ih =>
    simp only [vocabRec] at h
    split at h
    · rename_i r heq
      simp only [Option.some.injEq, Prod.mk.injEq] at h
      obtain ⟨-, h2⟩ := h
      subst h2
      have hlen := ciDrop_length heq
      have hnn : a.toList ≠ [] := hne a (by simp)
      have : a.toList.length ≥ 1 := by
        cases hx : a.toList with
        | nil => exact absurd hx hnn
        | cons _ _ => simp
      omega
    · exact ih h (fun x hx => hne x (by simp [hx]))

theorem macroMatchAt_length {cs : List Char} {w : String}
    {d : List Char × List Char} {rest : List Char}
    (h : macroMatchAt cs = some (w, d, rest)) : rest.length < cs.length := by
  simp only [macroMatchAt] at h
  split at h
  · exact absurd h (by simp)
  · rename_i w' r heq
    split at h
    · rename_i d' rest' heq2
      simp only [Option.some.injEq, Prod.mk.injEq] at h
      obtain ⟨-, -, h3⟩ := h
      subst h3
      have h1 := vocabRec_length heq (by decide)
      have h2 := parseNumber_length heq2
      have h3 := dropWhile_length_le (fun c => !c.isDigit) r
      omega
    · exact absurd h (by simp)

/-- The fuel bound is irrelevant once it covers the input length, so
`macroScan` below is the total scan. -/
theorem macroScanF_fuel {fuel fuel' : Nat} {cs : List Char}
    (h : cs.length ≤ fuel) (h' : cs.length ≤ fuel') :
    macroScanF fuel cs = macroScanF fuel' cs := by
  induction fuel generalizing fuel' cs with
  | zero =>
    match cs with
    | [] => cases fuel' <;> rfl
    | c :: cs' => simp at h
  | succ f ih =>
    match cs with
    | [] => cases fuel' <;> rfl
    | c :: cs' =>
      match fuel' with
      | 0 => simp at h'
      | f' + 1 =>
        cases hm : macroMatchAt (c :: cs') with
        | some p =>
          obtain ⟨name, d, rest⟩ := p
          have hlt := macroMatchAt_length hm
          simp only [List.length_cons] at h h' hlt
          simp only [macroScanF, hm]
          exact congrArg _ (@ih f' rest (by omega) (by omega))
        | none =>
          simp only [List.length_cons] at h h'
          simp only [macroScanF, hm]
          exact @ih f' cs' (by omega) (by omega)

theorem pyFloat_int (ds : List Char) : pyFloat (ds, []) = (natOfDigits ds : ℚ) := by
  simp [pyFloat, natOfDigits]

theorem recipeDelimTail_length {cs r : List Char}
    (h : recipeDelimTail cs = some r) : r.length < cs.length := by
  unfold recipeDelimTail at h
  split at h
  · simp at h
  · rename_i rest heq
    have hl := ciDrop_length heq
    have h6 : ("recipe".toList).length = 6 := by decide
    rw [h6] at hl
    split at h
    · simp at h
    · rename_i c r'
      split at h
      · split at h
        · simp at h
        · rename_i d rr
          split at h
          · simp only [Option.some.injEq] at h
            subst h
            simp only [List.length_cons] at hl
            omega
          · simp at h
      · split at h
        · simp only [Option.some.injEq] at h
          subst h
          simp only [List.length_cons] at hl
          omega
        · simp at h

theorem eqRunTail_length {cs r : List Char} (h : eqRunTail cs = some r) :
    r.length < cs.length := by
  unfold eqRunTail at h
  split at h
  · rename_i a b c rest
    split at h
    · simp only [Option.some.injEq] at h
      subst h
      have := dropWhile_length_le (fun x => x = '=') rest
      simp only [List.length_cons]
      omega
    · simp at h
  · simp at h

theorem dashRunTail_length {cs r : List Char} (h : dashRunTail cs = some r) :
    r.length < cs.length := by
  unfold dashRunTail at h
  split at h
  · rename_i a b c rest
    split at h
    · simp only [Option.some.injEq] at h
      subst h
      have := dropWhile_length_le (fun x => x = '-') rest
      simp only [List.length_cons]
      omega
    · simp at h
  · simp at h

theorem matchDelimTail_length {cs r : List Char}
    (h : matchDelimTail cs = some r) : r.length < cs.length := by
  unfold matchDelimTail at h
  cases h1 : recipeDelimTail cs with
  | some r0 =>
    rw [h1] at h
    simp only [Option.some.injEq] at h
    subst h
    exact recipeDelimTail_length h1
  | none =>
    rw [h1] at h
    cases h2 : eqRunTail cs with
    | some r0 =>
      rw [h2] at h
      simp only [Option.some.injEq] at h
      subst h
      exact eqRunTail_length h2
    | none =>
      rw [h2] at h
      exact dashRunTail_length h

/-- The fuel bound is irrelevant once it covers the input length. -/
theorem splitScanF_fuel {fuel fuel' : Nat} {cs acc : List Char}
    (h : cs.length ≤ fuel) (h' : cs.length ≤ fuel') :
    splitScanF fuel cs acc = splitScanF fuel' cs acc := by
  induction fuel generalizing fuel' cs acc with
  | zero =>
    match cs with
    | [] => cases fuel' <;> rfl
    | c :: cs' => simp at h
  | succ f ih =>
    match cs with
    | [] => cases fuel' <;> rfl
    | c :: cs' =>
      match fuel' with
      | 0 => simp at h'
      | f' + 1 =>
        simp only [List.length_cons] at h h'
        by_cases hc : c = '\n'
        · cases hm : matchDelimTail cs' with
          | some rest' =>
            have hlt := matchDelimTail_length hm
            simp only [splitScanF, if_pos hc, hm]
            exact congrArg _ (@ih f' rest' [] (by omega) (by omega))
          | none =>
            simp only [splitScanF, if_pos hc, hm]
            exact @ih f' cs' (c :: acc) (by omega) (by omega)
        · simp only [splitScanF, if_neg hc]
          exact @ih f' cs' (c :: acc) (by omega) (by omega)

theorem find?_split {α : Type} (p : α → Bool) (l₁ l₂ : List α) :
    (l₁ ++ l₂).find? p =
      match l₁.find? p with
      | some a => some a
      | none => l₂.find? p := by
  induction l₁ with
  | nil => simp
  | cons a as ih =>
    by_cases h : p a = true
    · simp [List.find?_cons_of_pos, h]
    · simp [List.find?_cons_of_neg, h, ih]

theorem macroLookup_insert (m : List (String × ℚ)) (q : String × ℚ) (k : String) :
    macroLookup (macroInsert m q) k =
      if q.1 = k then some q.2 else macroLookup m k := by
  induction m with
  | nil =>
    by_cases h : q.1 = k
    · simp [macroInsert, macroLookup, List.find?, h]
    · simp [macroInsert, macroLookup, List.find?, h]
  | cons a rest ih =>
    by_cases ha : a.1 = q.1
    · simp only [macroInsert, if_pos ha]
      by_cases h : q.1 = k
      · simp [macroLookup, List.find?, h]
      · have ha2 : a.1 = k → False := fun hh => h (ha ▸ hh)
        simp only [macroLookup, List.find?]
        rw [if_neg h]
        simp only [macroLookup, List.find?] at ih ⊢
        cases hq : decide (q.1 = k) with
        | true => exact absurd (of_decide_eq_true hq) h
        | false =>
          cases hqa : decide (a.1 = k) with
          | true => exact absurd (of_decide_eq_true hqa) ha2
          | false => rfl
    · simp only [macroInsert, if_neg ha]
      by_cases h : q.1 = k
      · have ha2 : a.1 = k → False := fun hh => ha (h ▸ hh.symm ▸ rfl)
        simp only [macroLookup, List.find?]
        rw [if_pos h]
        cases hqa : decide (a.1 = k) with
        | true => exact absurd (of_decide_eq_true hqa) ha2
        | false =>
          have := ih
          simp only [macroLookup] at this
          rw [this, if_pos h]
      · simp only [macroLookup, List.find?]
        rw [if_neg h]
        cases hqa : decide (a.1 = k) with
        | true => rfl
        | false =>
          have := ih
          simp only [macroLookup] at this
          rw [this, if_neg h]

theorem macroLookup_fold (l : List (String × List Char × List Char))
    (acc : List (String × ℚ)) (k : String) :
    macroLookup (l.foldl (fun m q => macroInsert m (q.1, pyFloat q.2)) acc) k =
      match l.reverse.find? (fun q => q.1 = k) with
      | some q => some (pyFloat q.2)
      | none => macroLookup acc k := by
  induction l generalizing acc with
  | nil => simp
  | cons q rest ih =>
    simp only [List.foldl_cons, List.reverse_cons]
    rw [ih, find?_split]
    cases hr : rest.reverse.find? (fun q => q.1 = k) with
    | some a => rfl
    | none =>
      rw [macroLookup_insert]
      by_cases h : q.1 = k
      · simp [List.find?, h]
      · simp [List.find?, h]

/-- C7: macro extraction has last-match-wins semantics.  The value stored
under each name is the value of the last (rightmost) pattern match whose
lowercased name equals it, and concretely the block `"fat 5 ... fat 8"`
yields the mapping `{"fat": 8.0}`. -/
theorem C7_last_match_wins :
    (∀ (text name : String),
      macroLookup (extract_macros text) name =
        match (macroScan text.toList).reverse.find? (fun q => q.1 = name) with
        | some q => some (pyFloat q.2)
        | none => none)
    ∧ extract_macros "fat 5 ... fat 8" = [("fat", 8)] := by
  constructor
  · intro text name
    unfold extract_macros
    rw [macroLookup_fold]
    cases hr : (macroScan text.toList).reverse.find? (fun q => q.1 = name) with
    | some a => rfl
    | none => simp [macroLookup, List.find?]
  · show (macroScan "fat 5 ... fat 8".toList).foldl _ _ = _
    have h : macroScan "fat 5 ... fat 8".toList = [("fat", ['5'], []), ("fat", ['8'], [])] := by
      decide
    have h5 : natOfDigits ['5'] = 5 := by decide
    have h8 : natOfDigits ['8'] = 8 := by decide
    rw [h]
    simp [List.foldl, macroInsert, pyFloat_int, h5, h8]

/-- C10: macro names are matched with no word-boundary check, so a
vocabulary word embedded at the start of a longer word still produces an
entry: the block `"fatty 7"` yields the mapping `{"fat": 7.0}` (the word
"fat" matches inside "fatty", the letters "ty" and the space are consumed
by `[^\d]*`, and 7 is the parsed value). -/
theorem C10_no_word_boundary : extract_macros "fatty 7" = [("fat", 7)] := by
  show (macroScan "fatty 7".toList).foldl _ _ = _
  have h : macroScan "fatty 7".toList = [("fat", ['7'], [])] := by decide
  have h7 : natOfDigits ['7'] = 7 := by decide
  rw [h]
  simp [List.foldl, macroInsert, pyFloat_int, h7]

/-- C5: instruction extraction on the block
`"Instructions\nStep one here\nMacros: 200 calories"` yields exactly
`["Step one here"]`, and in general, once the capture flag is set, a line
containing a terminator substring ends extraction immediately: the result
is `[]` no matter what lines follow. -/
theorem C5_capture_stops_at_terminator :
    extract_instructions "Instructions\nStep one here\nMacros: 200 calories" = ["Step one here"]
    ∧ ∀ (l : List Char) (rest : List (List Char)),
        termsAny ((pyStrip l).map lowChar) = true →
          instructionsGo true (l :: rest) = [] := by
  constructor
  · decide
  · intro l rest ht
    simp [instructionsGo, ht]

/-- C5 witness: the general terminator clause applied to the line
`"Macros: 200"` followed by a further line that is never scanned. -/
theorem C5_capture_stops_at_terminator_witness :
    termsAny ((pyStrip "Macros: 200".toList).map lowChar) = true ∧
      instructionsGo true ("Macros: 200".toList :: ["Eat the whole thing now".toList]) = [] :=
  ⟨by decide, C5_capture_stops_at_terminator.2 _ _ (by decide)⟩

/-- C6: a block is delivered to the record store exactly when its stripped
length is at least 20 and the extracted ingredients or instructions are
non-empty; every other block yields `none` (skip or discard, never an
error). -/
theorem C6_delivery_iff (block : String) :
    (processBlock block).isSome = true ↔
      20 ≤ (pyStrip block.toList).length ∧
        (extract_ingredients block ≠ [] ∨ extract_instructions block ≠ []) := by
  unfold processBlock
  by_cases h1 : (pyStrip block.toList).length < 20
  · simp only [if_pos h1, Option.isSome_none, Bool.false_eq_true, false_iff]
    intro hcon
    omega
  · simp only [if_neg h1]
    by_cases h2 : (!(extract_ingredients block).isEmpty || !(extract_instructions block).isEmpty) = true
    · rw [if_pos h2]
      simp only [Option.isSome_some, true_iff]
      constructor
      · omega
      · rcases Bool.or_eq_true_iff.mp h2 with h | h
        · exact Or.inl (by simpa [List.isEmpty_iff] using h)
        · exact Or.inr (by simpa [List.isEmpty_iff] using h)
    · rw [if_neg h2]
      simp only [Option.isSome_none, Bool.false_eq_true, false_iff]
      intro hcon
      rcases hcon.2 with h | h
      · exact h2 (by simp [List.isEmpty_iff, h])
      · exact h2 (by simp [List.isEmpty_iff, h])

theorem enumerateFrom_map_fst (l : List String) (n : Nat) :
    (enumerateFrom n l).map Prod.fst = List.range' n l.length := by
  induction l generalizing n with
  | nil => simp [enumerateFrom]
  | cons a as ih => simp [enumerateFrom, List.range'_succ, ih]

/-- C8: for every recipe delivered by the pipeline, the step numbers that
`save_recipe` assigns to its instructions are exactly 1..N in order with no
gaps, independently of how many lines were filtered out during capture
(the numbering is over the delivered list, via `enumerate(instructions, 1)`). -/
theorem C8_step_numbering (text : String) (r : Recipe)
    (_h : r ∈ extract_and_store_all_recipes text) :
    (savedInstructionRows r).map Prod.fst = List.range' 1 r.instructions.length :=
  enumerateFrom_map_fst r.instructions 1

/-- C8 witness: a one-block text whose recipe is delivered with one
instruction numbered `[1]`. -/
theorem C8_step_numbering_witness :
    (⟨"Instructions", [], ["Mix the flour and the water"], []⟩ : Recipe) ∈
        extract_and_store_all_recipes "Instructions\nMix the flour and the water" ∧
      (savedInstructionRows ⟨"Instructions", [], ["Mix the flour and the water"], []⟩).map Prod.fst =
        List.range' 1 1 :=
  ⟨by decide,
    C8_step_numbering "Instructions\nMix the flour and the water" _ (by decide)⟩

/-- C9: each field extractor is a deterministic pure function of the block
text alone; in the embedding the extractors take only the text as argument,
so two runs on equal block texts return identical results. -/
theorem C9_extractors_deterministic (t u : String) (h : t = u) :
    extract_ingredients t = extract_ingredients u ∧
      extract_instructions t = extract_instructions u ∧
      extract_macros t = extract_macros u := by
  subst h
  exact ⟨rfl, rfl, rfl⟩

/-- C9 witness: two runs on the same concrete block agree. -/
theorem C9_extractors_deterministic_witness :
    extract_ingredients "1 cup rice" = extract_ingredients "1 cup rice" ∧
      extract_instructions "1 cup rice" = extract_instructions "1 cup rice" ∧
      extract_macros "1 cup rice" = extract_macros "1 cup rice" :=
  C9_extractors_deterministic "1 cup rice" "1 cup rice" rfl

/-- C1 counterexample: the code does classify the line `"2 cupcakes"` as an
ingredient.  Rule (a) rejects it (after "cup" the next character "c" is a
word character, so the `\b` boundary fails and no other unit word matches),
but rule (b) accepts it: the line starts with a digit and a space, and its
lowercase form contains the substring "cup" (inside "cupcakes").  The claim
asserts the line is not classified, so this refutes it. -/
theorem C1_counterexample : extract_ingredients "2 cupcakes" = ["2 cupcakes"] := by
  decide

theorem extract_ingredients_mem {text l : String}
    (h : l ∈ extract_ingredients text) :
    (ruleA l.toList || (ruleB l.toList && hasUnitSubstr l.toList)) = true := by
  simp only [extract_ingredients, List.mem_filterMap] at h
  obtain ⟨x, -, hx⟩ := h
  split at hx
  · rename_i hcond
    simp only [Option.some.injEq] at hx
    subst hx
    simp [String.toList, hcond]
  · split at hx
    · rename_i hcond
      simp only [Option.some.injEq] at hx
      subst hx
      simp [String.toList, hcond]
    · exact absurd hx (by simp)

/-- C1 amended: `"2 cups flour"` is classified as an ingredient, and the
unit word must indeed match at a word boundary under rule (a), which rejects
`"2 cupcakes"`; but `"2 cupcakes"` is nevertheless classified, because rule
(b)'s substring containment finds "cup" inside "cupcakes".  A line
qualifying under neither rule (a) nor rule (b) is discarded: every emitted
line satisfies rule (a) or rule (b). -/
theorem C1_amended :
    extract_ingredients "2 cups flour" = ["2 cups flour"]
    ∧ ruleA ("2 cupcakes".toList) = false
    ∧ extract_ingredients "2 cupcakes" = ["2 cupcakes"]
    ∧ ∀ (text l : String), l ∈ extract_ingredients text →
        (ruleA l.toList || (ruleB l.toList && hasUnitSubstr l.toList)) = true := by
  refine ⟨by decide, by decide, by decide, ?_⟩
  intro text l h
  exact extract_ingredients_mem h

/-- C1 witness: the discard clause applied to the emitted line
`"2 cupcakes"`. -/
theorem C1_amended_witness :
    (ruleA ("2 cupcakes".toList) ||
      (ruleB ("2 cupcakes".toList) && hasUnitSubstr ("2 cupcakes".toList))) = true :=
  C1_amended.2.2.2 "2 cupcakes" "2 cupcakes" (by decide)

/-- C2 counterexample: on the block `"1234 5678"` the title pattern does
match (the single space is in the class `[A-Za-z ,]`), the captured run
strips to the empty string, and the code then yields `""`, not the default
`"Untitled Recipe"`.  The claim asserts the default is produced whenever
the matched run trims to empty, so this refutes it. -/
theorem C2_counterexample :
    extract_title "1234 5678" = "" ∧ extract_title "1234 5678" ≠ "Untitled Recipe" := by
  decide

theorem lowChar_ne_r {c : Char} (h : titleChar c = false) : ¬lowChar c = 'r' := by
  intro heq
  unfold lowChar at heq
  split at heq
  · rename_i hAZ
    simp [titleChar, hAZ] at h
  · subst heq
    exact absurd h (by decide)

theorem titleCharAt_false {cs : List Char}
    (hall : cs.all (fun c => !titleChar c) = true) (i : Nat) :
    titleCharAt cs i = false := by
  unfold titleCharAt
  cases hg : cs.get? i with
  | none => rfl
  | some c =>
    have hmem : c ∈ cs := List.get?_mem hg
    have := List.all_eq_true.mp hall c hmem
    simpa using this

theorem pickStart_none {cs : List Char}
    (hall : cs.all (fun c => !titleChar c) = true) (j : Nat) :
    pickStart cs j = none := by
  induction j with
  | zero => simp [pickStart, titleCharAt_false hall]
  | succ j ih => simp [pickStart, titleCharAt_false hall, ih]

theorem wsThenRun_none {cs : List Char}
    (hall : cs.all (fun c => !titleChar c) = true) : wsThenRun cs = none := by
  unfold wsThenRun
  rw [pickStart_none hall]

theorem recipeLabelTail_none {cs : List Char}
    (hall : cs.all (fun c => !titleChar c) = true) : recipeLabelTail cs = none := by
  unfold recipeLabelTail
  cases cs with
  | nil => rfl
  | cons c rest =>
    have hc : titleChar c = false := by
      have := List.all_eq_true.mp hall c (by simp)
      simpa using this
    have hstep : "recipe".toList = 'r' :: "ecipe".toList := by decide
    have hdrop : ciDrop "recipe".toList (c :: rest) = none := by
      rw [hstep]
      unfold ciDrop
      rw [if_neg (lowChar_ne_r hc)]
    rw [hdrop]

theorem titleMatchAt_none {cs : List Char}
    (hall : cs.all (fun c => !titleChar c) = true) : titleMatchAt cs = none := by
  unfold titleMatchAt
  rw [recipeLabelTail_none hall]
  exact wsThenRun_none hall

theorem titleSearch_none {cs : List Char}
    (hall : cs.all (fun c => !titleChar c) = true) : titleSearch cs = none := by
  induction cs with
  | nil => rfl
  | cons c rest ih =>
    have hrest : rest.all (fun c => !titleChar c) = true := by
      simp only [List.all_cons, Bool.and_eq_true] at hall
      exact hall.2
    unfold titleSearch
    rw [titleMatchAt_none hall]
    exact ih hrest

/-- C2 amended: the default `"Untitled Recipe"` is produced exactly on the
no-match path; in particular it is produced whenever the stripped block
contains no character of the class `[A-Za-z ,]` (no letter, space or
comma), e.g. a block of digits only.  When the pattern does match but the
captured run strips to empty, the title is the empty string instead of the
default. -/
theorem C2_amended :
    (∀ block : String,
      ((pyStrip block.toList).all fun c => !titleChar c) = true →
        extract_title block = "Untitled Recipe")
    ∧ extract_title "1234 5678" = "" := by
  constructor
  · intro block hall
    unfold extract_title
    rw [titleSearch_none hall]
  · decide

/-- C2 witness: the default clause applied to a digits-only block. -/
theorem C2_amended_witness :
    ((pyStrip ("987654321012345678901".toList)).all fun c => !titleChar c) = true
    ∧ extract_title "987654321012345678901" = "Untitled Recipe" :=
  ⟨by decide, C2_amended.1 "987654321012345678901" (by decide)⟩

theorem stringMk_toList (cs : List Char) : (String.mk cs).toList = cs := rfl

/-- C3 counterexample: the split pattern's first alternative is
`recipe\s?:`, in which the colon is required; a line beginning with
"recipe" and no colon does not start a new block, so this text stays a
single block even though it has a line starting with "recipe".  The claim
asserts the colon is optional, so this refutes it. -/
theorem C3_counterexample :
    split_recipes "abc\nrecipe pancakes" = ["abc\nrecipe pancakes"] := by
  decide

/-- C3 amended: the segmenter splits at every line boundary whose line
begins (case-insensitively) with "recipe", at most one whitespace
character, and then a mandatory colon; a line beginning with "recipe"
without a following colon does not start a new block.  The first conjunct
characterises the delimiter matcher on every line beginning with "recipe";
the others exercise the split itself with and without the colon. -/
theorem C3_amended :
    (∀ rest : List Char,
      (recipeDelimTail ('r' :: 'e' :: 'c' :: 'i' :: 'p' :: 'e' :: rest)).isSome = true ↔
        (∃ r, rest = ':' :: r) ∨ ∃ c r, pyIsSpace c = true ∧ rest = c :: ':' :: r)
    ∧ split_recipes "abc\nRecipe: d" = ["abc", " d"]
    ∧ split_recipes "xyz\nrecipe no colon here" = ["xyz\nrecipe no colon here"] := by
  refine ⟨?_, by decide, by decide⟩
  intro rest
  have hdrop : ciDrop "recipe".toList ('r' :: 'e' :: 'c' :: 'i' :: 'p' :: 'e' :: rest) = some rest := rfl
  unfold recipeDelimTail
  rw [hdrop]
  cases rest with
  | nil => simp
  | cons c r' =>
    by_cases hc : pyIsSpace c = true
    · have hcc : ¬c = ':' := by
        intro hh
        subst hh
        exact absurd hc (by decide)
      cases r' with
      | nil => simp [hc, hcc]
      | cons d rr =>
        by_cases hd : d = ':'
        · subst hd
          simp [hc]
        · simp [hc, hd, hcc]
    · by_cases hc2 : c = ':'
      · subst hc2
        simp [hc]
      · simp [hc, hc2]
        exact fun x hx hcx r hr => absurd hx (hcx ▸ hc)

/-- C4 counterexample: splitting consumes only the matched `Recipe:` label,
not the whole delimiter line: the rest of that line (" Pancakes") remains
at the head of the following block.  The claim asserts no character of a
delimiter line appears in any output block, so this refutes it. -/
theorem C4_counterexample :
    split_recipes "Recipe: Pancakes\nMix it all up well" =
        ["", " Pancakes\nMix it all up well"]
      ∧ containsSub ("Pancakes".toList)
          (((split_recipes "Recipe: Pancakes\nMix it all up well").getD 1 "").toList) = true := by
  decide

theorem splitScanF_noCut {cs : List Char} (h : hasCut cs = false) :
    ∀ (fuel : Nat) (acc : List Char), cs.length ≤ fuel →
      splitScanF fuel cs acc = [acc.reverse ++ cs] := by
  induction cs with
  | nil =>
    intro fuel acc _
    cases fuel with
    | zero => simp [splitScanF]
    | succ f => simp [splitScanF]
  | cons c rest ih =>
    intro fuel acc hf
    match fuel with
    | 0 => simp at hf
    | f + 1 =>
      simp only [hasCut] at h
      rw [Bool.or_eq_false_iff] at h
      obtain ⟨h1, h2⟩ := h
      simp only [List.length_cons] at hf
      by_cases hc : c = '\n'
      · subst hc
        have hm : matchDelimTail rest = none := by
          cases hm : matchDelimTail rest with
          | none => rfl
          | some r =>
            rw [hm] at h1
            simp at h1
        simp only [splitScanF, if_pos rfl, hm]
        rw [ih h2 f ('\n' :: acc) (by omega)]
        simp
      · simp only [splitScanF, if_neg hc]
        rw [ih h2 f (c :: acc) (by omega)]
        simp

/-- C4 amended: when the segmenter splits at a delimiter, it consumes
exactly the matched text (the preceding newline if any, and the
`recipe[ws]:` label or the maximal run of "="/"-"), not the whole line:
for a text beginning with `Recipe:`, everything after the label — the rest
of the delimiter line included — appears at the head of the following
block. -/
theorem C4_amended (tail : List Char) (h : hasCut tail = false) :
    split_recipes (String.mk ('R' :: 'e' :: 'c' :: 'i' :: 'p' :: 'e' :: ':' :: tail)) =
      ["", String.mk tail] := by
  have hm : matchDelimTail ('R' :: 'e' :: 'c' :: 'i' :: 'p' :: 'e' :: ':' :: tail) = some tail := rfl
  unfold split_recipes
  rw [stringMk_toList, hm]
  show "" :: (splitScanF tail.length tail []).map String.mk = ["", String.mk tail]
  rw [splitScanF_noCut h tail.length [] le_rfl]
  simp

/-- C4 witness: the amended statement applied to the delimiter line
`"Recipe: Pancakes"`, whose text after the label survives in the block. -/
theorem C4_amended_witness :
    hasCut (" Pancakes".toList) = false ∧
      split_recipes (String.mk ('R' :: 'e' :: 'c' :: 'i' :: 'p' :: 'e' :: ':' :: " Pancakes".toList)) =
        ["", String.mk (" Pancakes".toList)] :=
  ⟨by decide, C4_amended (" Pancakes".toList) (by decide)⟩

end RecipeApp
